import Mathlib

/-!
Verification of the git-cleanup branch-cleanup utility
(src/lib/git-cleanup.js), shallowly embedded in Lean 4.

The external command runner is modelled as a pure function from a command
string to an outcome record (error / stdout / stderr), mirroring the
callback signature of child_process.exec.  The whole run is modelled as a
pure function that returns the ordered trace of command strings handed to
the runner together with the final outcome, so that claims about which
commands are issued become claims about the trace.

The module-level regular expression HEAD_BRANCH_REGEX is created with the
global flag, so its lastIndex survives between invocations; the model
threads that number explicitly.  Strings are modelled at the character
level (JS string indices are UTF-16 code units; all inputs of interest
here are ASCII, where the two coincide).
-/

/-- The character class matched by the JS regular-expression escape
backslash-s: tab, line feed, vertical tab, form feed, carriage return,
space, and the Unicode space characters listed in the ECMAScript
specification. -/
def isJsSpace (c : Char) : Bool :=
  let n := c.toNat
  n = 9 || n = 10 || n = 11 || n = 12 || n = 13 || n = 32 ||
  n = 0xa0 || n = 0x1680 || (0x2000 ≤ n && n ≤ 0x200a) ||
  n = 0x2028 || n = 0x2029 || n = 0x202f || n = 0x205f ||
  n = 0x3000 || n = 0xfeff

/-- The character class matched by the JS regular-expression dot without
the dotAll flag: every character except the four line terminators. -/
def isJsDotChar (c : Char) : Bool :=
  !(c == '\n' || c == '\r' || c.toNat == 0x2028 || c.toNat == 0x2029)

/-- JS String.prototype.split with separator a single line feed,
on the character list of the string. -/
def splitLines : List Char → List (List Char)
  | [] => [[]]
  | c :: rest =>
    if c = '\n' then [] :: splitLines rest
    else
      match splitLines rest with
      | [] => [[c]]
      | line :: lines => (c :: line) :: lines

/-- str.replace(backslash-s, empty string) with the global flag: remove
every whitespace character. -/
def jsStripSpaces (line : List Char) : String :=
  String.mk (line.filter (fun c => !isJsSpace c))

/-- sanitizeBranchOutput (git-cleanup.js line 46): split the raw output on
line feeds, strip all whitespace characters from each line, keep the
truthy (non-empty) results. -/
def sanitizeBranchOutput (output : String) : List String :=
  ((splitLines output.data).map jsStripSpaces).filter (fun s => s != "")

/-- JS String.prototype.endsWith: the candidate suffix's characters form a
suffix of the string's characters. -/
def jsEndsWith (s search : String) : Bool :=
  List.isSuffixOf search.data s.data

/-- Attempt to match HEAD_BRANCH_REGEX (the pattern HEAD, one whitespace,
branch colon, one whitespace, then a capture of one or more non-terminator
characters, greedy) at the head of the character list.  On success returns
the capture together with the length of the whole match. -/
def matchHeadBranchAt : List Char → Option (List Char × Nat)
  | 'H' :: 'E' :: 'A' :: 'D' :: c1 :: 'b' :: 'r' :: 'a' :: 'n' :: 'c' :: 'h' :: ':' :: c2 :: rest =>
    if isJsSpace c1 && isJsSpace c2 then
      let cap := rest.takeWhile isJsDotChar
      if cap.isEmpty then none else some (cap, 13 + cap.length)
    else none
  | _ => none

/-- Scan for the first position at which the pattern matches; pos is the
index of the head of the list within the original string.  On success
returns the capture and the index one past the end of the match (the
regular expression's new lastIndex). -/
def searchHeadBranch : List Char → Nat → Option (List Char × Nat)
  | [], _ => none
  | c :: rest, pos =>
    match matchHeadBranchAt (c :: rest) with
    | some (cap, len) => some (cap, pos + len)
    | none => searchHeadBranch rest (pos + 1)

/-- HEAD_BRANCH_REGEX.exec(text) for a global regular expression with the
given lastIndex: search from lastIndex; on success return the capture and
set lastIndex past the match, on failure return none and reset lastIndex
to zero. -/
def headBranchExec (text : String) (lastIndex : Nat) : Option String × Nat :=
  if text.data.length < lastIndex then (none, 0)
  else
    match searchHeadBranch (text.data.drop lastIndex) lastIndex with
    | some (cap, newLast) => (some (String.mk cap), newLast)
    | none => (none, 0)

/-- What the operating system reports for one command: an optional fatal
error message, the standard output, and the standard error text. -/
structure ExecOutcome where
  error : Option String
  stdout : String
  stderr : String
deriving DecidableEq

/-- Result of the promise returned by exec: resolved with stdout, or
rejected with a message. -/
inductive ExecResult where
  | ok (stdout : String)
  | err (msg : String)
deriving DecidableEq

/-- exec (git-cleanup.js line 36): reject when the command fails; reject
when anything was written to stderr unless ignoreStderr is set; otherwise
resolve with stdout. -/
def execModel (runner : String → ExecOutcome) (ignoreStderr : Bool)
    (command : String) : ExecResult :=
  let outcome := runner command
  match outcome.error with
  | some message => ExecResult.err ("Error: " ++ message)
  | none =>
    if outcome.stderr != "" && !ignoreStderr then
      ExecResult.err ("Stderr: " ++ outcome.stderr)
    else ExecResult.ok outcome.stdout

/-- The active flag set built by getActiveFlags: HELP, DRY_RUN and FORCE
are presence flags (value true when given); HEAD carries the string value
following it on the command line. -/
structure CleanupFlags where
  help : Bool
  dryRun : Bool
  force : Bool
  head : Option String
deriving DecidableEq

/-- Result of getMainBranch: the awaited promise either throws (a rejected
exec propagates out of the await) or produces a value, which is null when
the pattern finds no match. -/
inductive ResolveResult where
  | thrown (msg : String)
  | value (v : Option String)
deriving DecidableEq

/-- The no-override path of getMainBranch (git-cleanup.js lines 70 to 79):
run git remote show origin, apply the stateful global regular expression
to its output, and return the capture, or null when there is no match.
Returns the result, the regular expression's new lastIndex, and the list
of commands issued. -/
def getMainBranchQuery (runner : String → ExecOutcome) (lastIndex : Nat) :
    ResolveResult × Nat × List String :=
  match execModel runner false "git remote show origin" with
  | ExecResult.err e => (ResolveResult.thrown e, lastIndex, ["git remote show origin"])
  | ExecResult.ok remoteInfo =>
    match headBranchExec remoteInfo lastIndex with
    | (none, li') => (ResolveResult.value none, li', ["git remote show origin"])
    | (some name, li') => (ResolveResult.value (some name), li', ["git remote show origin"])

/-- getMainBranch (git-cleanup.js line 66): when the HEAD flag is truthy
(present with a non-empty value) return it at once with no command issued;
otherwise query the remote. -/
def getMainBranch (flags : CleanupFlags) (runner : String → ExecOutcome)
    (lastIndex : Nat) : ResolveResult × Nat × List String :=
  match flags.head with
  | some s =>
    if s = "" then getMainBranchQuery runner lastIndex
    else (ResolveResult.value (some s), lastIndex, [])
  | none => getMainBranchQuery runner lastIndex

/-- branchesToDelete (git-cleanup.js line 103): keep each local branch
token for which no remote branch name ends with the token and the token is
not the star-marked main branch. -/
def branchesToDelete (localBranches remoteBranches : List String)
    (mainBranchName : String) : List String :=
  localBranches.filter (fun localBranch =>
    !(remoteBranches.any (fun remoteBranch => jsEndsWith remoteBranch localBranch)) &&
      localBranch != "*" ++ mainBranchName)

/-- deleteCommand (git-cleanup.js line 115): forced variant with the FORCE
flag, safe variant without. -/
def deleteCommand (force : Bool) (branch : String) : String :=
  "git branch " ++ (if force then "-D" else "-d") ++ " " ++ branch

/-- One step of the sequential reduce (git-cleanup.js lines 111 to 131):
in dry-run mode decrement the counter and issue nothing; otherwise issue
the delete command, and decrement the counter when it fails (the catch
swallows the rejection, so the chain continues).  The accumulator is the
trace of issued commands and the running counter. -/
def deletionStep (flags : CleanupFlags) (runner : String → ExecOutcome)
    (acc : List String × Int) (branch : String) : List String × Int :=
  let cmd := deleteCommand flags.force branch
  if flags.dryRun then (acc.1, acc.2 - 1)
  else
    match execModel runner false cmd with
    | ExecResult.ok _ => (acc.1 ++ [cmd], acc.2)
    | ExecResult.err _ => (acc.1 ++ [cmd], acc.2 - 1)

/-- The deletion pipeline: amountDeletedBranches starts at the candidate
count and the candidates are processed strictly in order. -/
def runDeletionPipeline (flags : CleanupFlags) (runner : String → ExecOutcome)
    (candidates : List String) : List String × Int :=
  candidates.foldl (deletionStep flags runner) ([], (candidates.length : Int))

/-- Whether the delete command for this branch would succeed under the
given runner. -/
def deleteSucceeds (flags : CleanupFlags) (runner : String → ExecOutcome)
    (branch : String) : Bool :=
  match execModel runner false (deleteCommand flags.force branch) with
  | ExecResult.ok _ => true
  | ExecResult.err _ => false

/-- How one invocation of the exported function ends. -/
inductive RunOutcome where
  | helpShown
  | resolutionFailed
  | notOnMain
  | noCandidates
  | finished (count : Int)
  | fatalError (msg : String)
deriving DecidableEq

/-- The observable result of one invocation: the ordered trace of command
strings handed to the runner, and the outcome. -/
structure RunResult where
  commands : List String
  outcome : RunOutcome
deriving DecidableEq

/-- The exported function (git-cleanup.js line 81), from the flag set on:
help short-circuits; resolve the main branch (a falsy result, null or the
empty string, returns early); list local branches; abort unless the token
found to contain the star marker is exactly star followed by the main
branch name; fetch with pruning (stderr ignored); list remote branches;
diff; then run the deletion pipeline and report its count.  A rejected
exec outside the pipeline is caught at the top level.  The regular
expression state lastIndex is threaded in and out. -/
def gitCleanup (flags : CleanupFlags) (runner : String → ExecOutcome)
    (lastIndex : Nat) : RunResult × Nat :=
  if flags.help then (⟨[], RunOutcome.helpShown⟩, lastIndex)
  else
    match getMainBranch flags runner lastIndex with
    | (ResolveResult.thrown e, li', cmds) => (⟨cmds, RunOutcome.fatalError e⟩, li')
    | (ResolveResult.value none, li', cmds) => (⟨cmds, RunOutcome.resolutionFailed⟩, li')
    | (ResolveResult.value (some mainBranchName), li', cmds) =>
      if mainBranchName = "" then (⟨cmds, RunOutcome.resolutionFailed⟩, li')
      else
        match execModel runner false "git branch" with
        | ExecResult.err e => (⟨cmds ++ ["git branch"], RunOutcome.fatalError e⟩, li')
        | ExecResult.ok localStdout =>
          if (sanitizeBranchOutput localStdout).find? (fun b => b.data.contains '*') ≠
              some ("*" ++ mainBranchName) then
            (⟨cmds ++ ["git branch"], RunOutcome.notOnMain⟩, li')
          else
            match execModel runner true "git fetch -p" with
            | ExecResult.err e =>
              (⟨cmds ++ ["git branch", "git fetch -p"], RunOutcome.fatalError e⟩, li')
            | ExecResult.ok _ =>
              match execModel runner false "git branch -r" with
              | ExecResult.err e =>
                (⟨cmds ++ ["git branch", "git fetch -p", "git branch -r"],
                  RunOutcome.fatalError e⟩, li')
              | ExecResult.ok remoteStdout =>
                if (branchesToDelete (sanitizeBranchOutput localStdout)
                    (sanitizeBranchOutput remoteStdout) mainBranchName).isEmpty then
                  (⟨cmds ++ ["git branch", "git fetch -p", "git branch -r"],
                    RunOutcome.noCandidates⟩, li')
                else
                  (⟨cmds ++ ["git branch", "git fetch -p", "git branch -r"] ++
                      (runDeletionPipeline flags runner
                        (branchesToDelete (sanitizeBranchOutput localStdout)
                          (sanitizeBranchOutput remoteStdout) mainBranchName)).1,
                    RunOutcome.finished
                      (runDeletionPipeline flags runner
                        (branchesToDelete (sanitizeBranchOutput localStdout)
                          (sanitizeBranchOutput remoteStdout) mainBranchName)).2⟩, li')

/-- A runner whose remote metadata always contains exactly one head-branch
line, together with consistent listings: used to exhibit the statefulness
of the module-level global regular expression. -/
def runnerStatefulDemo : String → ExecOutcome := fun command =>
  if command = "git remote show origin" then ExecOutcome.mk none "HEAD branch: main\n" ""
  else if command = "git branch" then ExecOutcome.mk none "* main\n" ""
  else if command = "git branch -r" then ExecOutcome.mk none "  origin/main\n" ""
  else ExecOutcome.mk none "" ""

example : sanitizeBranchOutput "* main\n  feature-a\n" = ["*main", "feature-a"] := by decide

example : sanitizeBranchOutput "" = [] := by decide

example : branchesToDelete ["*main", "feature-a", "feature-b"] ["origin/main"] "main" =
    ["feature-a", "feature-b"] := by decide

example : headBranchExec "HEAD branch: main\n" 0 = (some "main", 17) := by decide

example : headBranchExec "HEAD branch: main\n" 17 = (none, 0) := by decide

/-! ### Helper lemmas -/

theorem star_append_inj (a b : String) : "*" ++ a = "*" ++ b ↔ a = b := by
  constructor
  · intro h
    obtain ⟨da⟩ := a
    obtain ⟨db⟩ := b
    have h2 : '*' :: da = '*' :: db := congrArg String.data h
    have h3 : da = db := by simpa using h2
    exact congrArg String.mk h3
  · intro h
    rw [h]

theorem length_filter_partition {α : Type} (p : α → Bool) (l : List α) :
    (l.filter p).length + (l.filter (fun b => !p b)).length = l.length := by
  induction l with
  | nil => rfl
  | cons b l ih =>
    by_cases hb : p b <;> simp [List.filter_cons, hb] <;> omega


/-! ### Claim theorems -/

/-- Claim C7: for every input string, the Branch List Parser returns only
tokens that contain no whitespace character and are non-empty, and the
empty input yields the empty sequence. -/
theorem c7_parser_tokens :
    (∀ (output t : String), t ∈ sanitizeBranchOutput output →
        t ≠ "" ∧ ∀ c ∈ t.data, isJsSpace c = false) ∧
    sanitizeBranchOutput "" = [] := by
  refine ⟨?_, by decide⟩
  intro output t ht
  unfold sanitizeBranchOutput at ht
  rw [List.mem_filter] at ht
  obtain ⟨hmem, hne⟩ := ht
  refine ⟨by simpa using hne, ?_⟩
  rw [List.mem_map] at hmem
  obtain ⟨line, _, rfl⟩ := hmem
  intro c hc
  have hmem2 : c ∈ line.filter (fun c => !isJsSpace c) := hc
  have := List.of_mem_filter hmem2
  simpa using this

/-- Witness for C7 at a concrete input: the raw listing with marker,
indentation and blank lines parses to a whitespace-free non-empty token. -/
theorem c7_parser_tokens_witness :
    "*main" ∈ sanitizeBranchOutput "* main\n\n  feature-a\n" ∧
    ("*main" : String) ≠ "" ∧ ∀ c ∈ ("*main" : String).data, isJsSpace c = false :=
  ⟨by decide, c7_parser_tokens.1 "* main\n\n  feature-a\n" "*main" (by decide)⟩

/-- Claim C1: the Branch Diff Engine keeps a local token exactly when no
remote name ends with it and it is not the star-marked main token, in the
original listing order (the result is a sublist of the local listing), and
the two concrete examples from the specification evaluate as stated. -/
theorem c1_branch_diff :
    (∀ (localBranches remoteBranches : List String) (mainBranchName b : String),
        b ∈ branchesToDelete localBranches remoteBranches mainBranchName ↔
          b ∈ localBranches ∧
            (¬ ∃ r ∈ remoteBranches, jsEndsWith r b = true) ∧
            b ≠ "*" ++ mainBranchName) ∧
    (∀ (localBranches remoteBranches : List String) (mainBranchName : String),
        List.Sublist (branchesToDelete localBranches remoteBranches mainBranchName)
          localBranches) ∧
    branchesToDelete ["*main", "feature-a", "feature-b"] ["origin/main"] "main" =
      ["feature-a", "feature-b"] ∧
    branchesToDelete ["*main", "feature-a", "feature-b"]
      ["origin/main", "origin/feature-a"] "main" = ["feature-b"] := by
  refine ⟨?_, ?_, by decide, by decide⟩
  · intro l r m b
    simp [branchesToDelete, List.mem_filter, List.any_eq_true, bne_iff_ne]
  · intro l r m
    exact List.filter_sublist _

/-- Witness for C1 at a concrete input: feature-b is kept in the second
example because no remote name ends with it and it is not the marked main
token. -/
theorem c1_branch_diff_witness :
    "feature-b" ∈ branchesToDelete ["*main", "feature-a", "feature-b"]
      ["origin/main", "origin/feature-a"] "main" :=
  (c1_branch_diff.1 ["*main", "feature-a", "feature-b"]
      ["origin/main", "origin/feature-a"] "main" "feature-b").mpr
    ⟨by decide, by decide, by decide⟩

/-- Counterexample to C6 as stated: the flag set carries the head-branch
override value as the empty string, yet resolution issues the
remote-metadata query and returns the name extracted from the metadata,
not the override value, because the code tests the flag for JS truthiness
and the empty string is falsy. -/
theorem c6_counterexample :
    (CleanupFlags.mk false false false (some "")).head = some "" ∧
    getMainBranch (CleanupFlags.mk false false false (some ""))
        (fun _ => ExecOutcome.mk none "HEAD branch: main\n" "") 0 =
      (ResolveResult.value (some "main"), 17, ["git remote show origin"]) :=
  ⟨rfl, by decide⟩

/-- Claim C6 (amended): if the flag set contains a head-branch override
with a non-empty value, main-branch resolution returns that value
regardless of remote-metadata content and issues no command at all. -/
theorem c6_override (flags : CleanupFlags) (runner : String → ExecOutcome)
    (lastIndex : Nat) (s : String) (h1 : flags.head = some s) (h2 : s ≠ "") :
    getMainBranch flags runner lastIndex =
      (ResolveResult.value (some s), lastIndex, []) := by
  unfold getMainBranch
  rw [h1]
  simp [h2]

/-- Witness for the amended C6 at a concrete input: an override of trunk
is returned unchanged with no command issued, although the runner would
report a different head branch. -/
theorem c6_override_witness :
    (CleanupFlags.mk false false false (some "trunk")).head = some "trunk" ∧
    ("trunk" : String) ≠ "" ∧
    getMainBranch (CleanupFlags.mk false false false (some "trunk"))
        (fun _ => ExecOutcome.mk none "HEAD branch: main\n" "") 3 =
      (ResolveResult.value (some "trunk"), 3, []) :=
  ⟨rfl, by decide,
    c6_override (CleanupFlags.mk false false false (some "trunk"))
      (fun _ => ExecOutcome.mk none "HEAD branch: main\n" "") 3 "trunk" rfl (by decide)⟩

/-- In dry-run mode every step of the sequential reduce issues nothing and
decrements the counter once. -/
theorem foldl_deletionStep_dryRun (flags : CleanupFlags)
    (runner : String → ExecOutcome) (h : flags.dryRun = true) :
    ∀ (l : List String) (acc : List String × Int),
      l.foldl (deletionStep flags runner) acc = (acc.1, acc.2 - l.length) := by
  intro l
  induction l with
  | nil => intro acc; simp
  | cons b l ih =>
    intro acc
    rw [List.foldl_cons, ih]
    simp only [deletionStep, h, if_pos]
    refine Prod.ext rfl ?_
    simp only [List.length_cons]
    push_cast
    ring

/-- Without dry-run mode the sequential reduce issues exactly one delete
command per candidate, in order, and decrements the counter once per
failing command. -/
theorem foldl_deletionStep_live (flags : CleanupFlags)
    (runner : String → ExecOutcome) (h : flags.dryRun = false) :
    ∀ (l : List String) (acc : List String × Int),
      l.foldl (deletionStep flags runner) acc =
        (acc.1 ++ l.map (deleteCommand flags.force),
          acc.2 - ((l.filter (fun b => !deleteSucceeds flags runner b)).length : Int)) := by
  intro l
  induction l with
  | nil => intro acc; simp
  | cons b l ih =>
    intro acc
    rw [List.foldl_cons, ih]
    cases hM : execModel runner false (deleteCommand flags.force b) with
    | ok s =>
      have hs : deleteSucceeds flags runner b = true := by
        unfold deleteSucceeds
        rw [hM]
      simp only [deletionStep, h, Bool.false_eq_true, if_false, hM]
      refine Prod.ext ?_ ?_
      · simp [List.append_assoc]
      · simp [List.filter_cons, hs]
    | err e =>
      have hs : deleteSucceeds flags runner b = false := by
        unfold deleteSucceeds
        rw [hM]
      simp only [deletionStep, h, Bool.false_eq_true, if_false, hM]
      refine Prod.ext ?_ ?_
      · simp [List.append_assoc]
      · simp only [List.filter_cons, hs, Bool.not_false, if_pos, List.length_cons]
        push_cast
        ring

/-- Claim C2: when dry-run mode is active, for every non-empty candidate
set the pipeline issues no deletion command at all, and whenever the run
reports a final deleted-count, that count is zero. -/
theorem c2_dry_run (flags : CleanupFlags) (runner : String → ExecOutcome)
    (candidates : List String) (lastIndex : Nat)
    (h1 : flags.dryRun = true) (h2 : candidates ≠ []) :
    runDeletionPipeline flags runner candidates = ([], 0) ∧
    ∀ c : Int, (gitCleanup flags runner lastIndex).1.outcome = RunOutcome.finished c →
      c = 0 := by
  have hzero : ∀ cand : List String, runDeletionPipeline flags runner cand = ([], 0) := by
    intro cand
    rw [runDeletionPipeline, foldl_deletionStep_dryRun flags runner h1]
    simp
  refine ⟨hzero candidates, ?_⟩
  intro c hc
  unfold gitCleanup at hc
  simp only [hzero] at hc
  repeat' split at hc
  all_goals simp_all

/-- Witness for C2 at a concrete input: in a dry run over one candidate,
nothing is issued and the counter ends at zero. -/
theorem c2_dry_run_witness :
    (CleanupFlags.mk false true false none).dryRun = true ∧
    (["stale"] : List String) ≠ [] ∧
    runDeletionPipeline (CleanupFlags.mk false true false none)
        (fun _ => ExecOutcome.mk none "" "") ["stale"] = ([], 0) :=
  ⟨rfl, by decide,
    (c2_dry_run (CleanupFlags.mk false true false none)
      (fun _ => ExecOutcome.mk none "" "") ["stale"] 0 rfl (by decide)).1⟩

/-- Claim C3: without dry-run mode, the delete command of every candidate
is issued in listing order (a failing command does not stop the batch),
and the final counter equals the number of candidates whose delete command
succeeded. -/
theorem c3_failure_isolation (flags : CleanupFlags) (runner : String → ExecOutcome)
    (candidates : List String) (h : flags.dryRun = false) :
    (runDeletionPipeline flags runner candidates).1 =
      candidates.map (deleteCommand flags.force) ∧
    (runDeletionPipeline flags runner candidates).2 =
      ((candidates.filter (deleteSucceeds flags runner)).length : Int) := by
  rw [runDeletionPipeline, foldl_deletionStep_live flags runner h]
  refine ⟨by simp, ?_⟩
  have hpart := length_filter_partition (deleteSucceeds flags runner) candidates
  simp only []
  omega

/-- Witness for C3 at a concrete input: with a runner that fails exactly
on the first candidate's delete command, both commands are issued and the
counter ends at one. -/
theorem c3_failure_isolation_witness :
    (CleanupFlags.mk false false false none).dryRun = false ∧
    ((runDeletionPipeline (CleanupFlags.mk false false false none)
        (fun cmd => if cmd = "git branch -d bad" then ExecOutcome.mk (some "boom") "" ""
          else ExecOutcome.mk none "" "") ["bad", "good"]).1 =
      (["bad", "good"] : List String).map
        (deleteCommand (CleanupFlags.mk false false false none).force) ∧
     (runDeletionPipeline (CleanupFlags.mk false false false none)
        (fun cmd => if cmd = "git branch -d bad" then ExecOutcome.mk (some "boom") "" ""
          else ExecOutcome.mk none "" "") ["bad", "good"]).2 =
      (((["bad", "good"] : List String).filter
        (deleteSucceeds (CleanupFlags.mk false false false none)
          (fun cmd => if cmd = "git branch -d bad" then ExecOutcome.mk (some "boom") "" ""
            else ExecOutcome.mk none "" ""))).length : Int)) :=
  ⟨rfl,
    c3_failure_isolation (CleanupFlags.mk false false false none)
      (fun cmd => if cmd = "git branch -d bad" then ExecOutcome.mk (some "boom") "" ""
        else ExecOutcome.mk none "" "") ["bad", "good"] rfl⟩

/-- Claim C8: without dry-run mode, every issued deletion command uses the
forced-delete variant when the force flag is set and the safe-delete
variant when it is not. -/
theorem c8_delete_variant (flags : CleanupFlags) (runner : String → ExecOutcome)
    (candidates : List String) (h : flags.dryRun = false) :
    (flags.force = true →
      (runDeletionPipeline flags runner candidates).1 =
        candidates.map (fun b => "git branch -D " ++ b)) ∧
    (flags.force = false →
      (runDeletionPipeline flags runner candidates).1 =
        candidates.map (fun b => "git branch -d " ++ b)) := by
  have hD : ∀ b : String, deleteCommand true b = "git branch -D " ++ b := by
    intro b
    obtain ⟨d⟩ := b
    rfl
  have hd : ∀ b : String, deleteCommand false b = "git branch -d " ++ b := by
    intro b
    obtain ⟨d⟩ := b
    rfl
  constructor <;> intro hf <;>
    rw [runDeletionPipeline, foldl_deletionStep_live flags runner h] <;>
    simp only [List.nil_append, hf] <;>
    exact List.map_congr_left (fun b _ => by first | exact hD b | exact hd b)

/-- Witness for C8 at a concrete input: with the force flag the issued
command uses the forced-delete variant. -/
theorem c8_delete_variant_witness :
    (CleanupFlags.mk false false true none).dryRun = false ∧
    ((CleanupFlags.mk false false true none).force = true →
      (runDeletionPipeline (CleanupFlags.mk false false true none)
          (fun _ => ExecOutcome.mk none "" "") ["stale"]).1 =
        (["stale"] : List String).map (fun b => "git branch -D " ++ b)) :=
  ⟨rfl,
    (c8_delete_variant (CleanupFlags.mk false false true none)
      (fun _ => ExecOutcome.mk none "" "") ["stale"] rfl).1⟩

/-- If the pattern matches at no position of the list, the scan finds
nothing. -/
theorem searchHeadBranch_eq_none (cs : List Char) (pos : Nat)
    (h : ∀ k, matchHeadBranchAt (cs.drop k) = none) :
    searchHeadBranch cs pos = none := by
  induction cs generalizing pos with
  | nil => rfl
  | cons c rest ih =>
    have h0 : matchHeadBranchAt (c :: rest) = none := by simpa using h 0
    unfold searchHeadBranch
    rw [h0]
    exact ih (pos + 1) (fun k => by simpa using h (k + 1))

/-- If the scan finds nothing, the pattern matches at no position of the
list. -/
theorem matchAt_none_of_searchHeadBranch (cs : List Char) (pos : Nat)
    (h : searchHeadBranch cs pos = none) :
    ∀ k, matchHeadBranchAt (cs.drop k) = none := by
  induction cs generalizing pos with
  | nil => intro k; simp [List.drop_nil]; rfl
  | cons c rest ih =>
    unfold searchHeadBranch at h
    cases hM : matchHeadBranchAt (c :: rest) with
    | some v =>
      rw [hM] at h
      obtain ⟨cap, len⟩ := v
      simp at h
    | none =>
      rw [hM] at h
      intro k
      cases k with
      | zero => simpa using hM
      | succ k => simpa using ih (pos + 1) h k

/-- Claim C4: with no head-override flag and remote metadata containing no
line matching the head-branch pattern, resolution fails and the run stops:
the only command ever issued is the remote-metadata query, so no fetch, no
branch listing and no delete command happens, whatever the regular
expression's prior state. -/
theorem c4_resolution_failure (flags : CleanupFlags) (runner : String → ExecOutcome)
    (text : String) (lastIndex : Nat)
    (h_help : flags.help = false) (h_head : flags.head = none)
    (h_show : execModel runner false "git remote show origin" = ExecResult.ok text)
    (h_nomatch : (headBranchExec text 0).1 = none) :
    (gitCleanup flags runner lastIndex).1 =
      ⟨["git remote show origin"], RunOutcome.resolutionFailed⟩ := by
  have hAll : ∀ k, matchHeadBranchAt (text.data.drop k) = none := by
    unfold headBranchExec at h_nomatch
    rw [if_neg (by omega)] at h_nomatch
    cases hS : searchHeadBranch (text.data.drop 0) 0 with
    | some v =>
      rw [hS] at h_nomatch
      obtain ⟨cap, last⟩ := v
      simp at h_nomatch
    | none =>
      have hnone := matchAt_none_of_searchHeadBranch _ _ hS
      intro k
      simpa using hnone k
  have hExec : headBranchExec text lastIndex = (none, 0) := by
    unfold headBranchExec
    by_cases hlen : text.data.length < lastIndex
    · rw [if_pos hlen]
    · rw [if_neg hlen]
      rw [searchHeadBranch_eq_none _ _
        (fun k => by simpa [List.drop_drop] using hAll (lastIndex + k))]
  have hQ : getMainBranch flags runner lastIndex =
      (ResolveResult.value none, 0, ["git remote show origin"]) := by
    unfold getMainBranch getMainBranchQuery
    simp only [h_head, h_show, hExec]
  unfold gitCleanup
  rw [if_neg (by simp [h_help]), hQ]

/-- Witness for C4 at a concrete input: metadata text without the head
line stops the run after the single metadata query. -/
theorem c4_resolution_failure_witness :
    (CleanupFlags.mk false false false none).help = false ∧
    (CleanupFlags.mk false false false none).head = none ∧
    execModel (fun _ => ExecOutcome.mk none "remote origin, no head here" "") false
        "git remote show origin" = ExecResult.ok "remote origin, no head here" ∧
    (headBranchExec "remote origin, no head here" 0).1 = none ∧
    (gitCleanup (CleanupFlags.mk false false false none)
        (fun _ => ExecOutcome.mk none "remote origin, no head here" "") 0).1 =
      ⟨["git remote show origin"], RunOutcome.resolutionFailed⟩ :=
  ⟨rfl, rfl, by decide, by decide,
    c4_resolution_failure (CleanupFlags.mk false false false none)
      (fun _ => ExecOutcome.mk none "remote origin, no head here" "")
      "remote origin, no head here" 0 rfl rfl (by decide) (by decide)⟩

/-- Claim C5: the Repository State Validator locates the token carrying
the leading current-branch marker; stripped of the marker, if it differs
from the resolved main branch name the run aborts with no command beyond
the resolution commands and the local listing, and if it is equal the run
proceeds past the gate (the fetch is issued and the outcome is not the
validator abort). -/
theorem c5_validator (flags : CleanupFlags) (runner : String → ExecOutcome)
    (lastIndex li' : Nat) (m : String) (cmds : List String) (localStdout rest : String)
    (h_help : flags.help = false)
    (h_res : getMainBranch flags runner lastIndex =
      (ResolveResult.value (some m), li', cmds))
    (h_m : m ≠ "")
    (h_local : execModel runner false "git branch" = ExecResult.ok localStdout)
    (h_cur : (sanitizeBranchOutput localStdout).find? (fun b => b.data.contains '*') =
      some ("*" ++ rest)) :
    (rest ≠ m → (gitCleanup flags runner lastIndex).1 =
      ⟨cmds ++ ["git branch"], RunOutcome.notOnMain⟩) ∧
    (rest = m → "git fetch -p" ∈ (gitCleanup flags runner lastIndex).1.commands ∧
      (gitCleanup flags runner lastIndex).1.outcome ≠ RunOutcome.notOnMain) := by
  constructor
  · intro hne
    have hcond : (sanitizeBranchOutput localStdout).find? (fun b => b.data.contains '*') ≠
        some ("*" ++ m) := by
      rw [h_cur]
      intro hEq
      exact hne ((star_append_inj rest m).mp (Option.some.inj hEq))
    unfold gitCleanup
    simp only [h_help, Bool.false_eq_true, if_false, h_res, if_neg h_m, h_local,
      if_pos hcond]
  · intro heq
    subst heq
    unfold gitCleanup
    simp only [h_help, Bool.false_eq_true, if_false, h_res, if_neg h_m, h_local,
      if_neg (not_not_intro h_cur)]
    cases hF : execModel runner true "git fetch -p" with
    | err e => simp
    | ok s =>
      cases hR : execModel runner false "git branch -r" with
      | err e => simp
      | ok remoteStdout =>
        by_cases hE : (branchesToDelete (sanitizeBranchOutput localStdout)
            (sanitizeBranchOutput remoteStdout) rest).isEmpty
        · simp [hE]
        · simp [hE]

/-- Witness for C5 at a concrete input: checked out on dev while the main
branch is main, the run aborts right after the local listing. -/
theorem c5_validator_witness :
    ("dev" : String) ≠ "main" ∧
    (gitCleanup (CleanupFlags.mk false false false (some "main"))
        (fun cmd => if cmd = "git branch" then ExecOutcome.mk none "* dev\n" ""
          else ExecOutcome.mk none "" "") 0).1 =
      ⟨[] ++ ["git branch"], RunOutcome.notOnMain⟩ :=
  ⟨by decide,
    (c5_validator (CleanupFlags.mk false false false (some "main"))
      (fun cmd => if cmd = "git branch" then ExecOutcome.mk none "* dev\n" ""
        else ExecOutcome.mk none "" "") 0 0 "main" [] "* dev\n" "dev"
      rfl (by decide) (by decide) (by decide) (by decide)).1 (by decide)⟩

/-- Claim C10: when no local branch token contains the current-branch
marker, the comparison against the marked main token fails and the run
aborts right after the local listing: no fetch, no remote listing, no
deletion command. -/
theorem c10_no_marker (flags : CleanupFlags) (runner : String → ExecOutcome)
    (lastIndex li' : Nat) (m : String) (cmds : List String) (localStdout : String)
    (h_help : flags.help = false)
    (h_res : getMainBranch flags runner lastIndex =
      (ResolveResult.value (some m), li', cmds))
    (h_m : m ≠ "")
    (h_local : execModel runner false "git branch" = ExecResult.ok localStdout)
    (h_nostar : ∀ b ∈ sanitizeBranchOutput localStdout, b.data.contains '*' = false) :
    (gitCleanup flags runner lastIndex).1 =
      ⟨cmds ++ ["git branch"], RunOutcome.notOnMain⟩ := by
  have hfind : (sanitizeBranchOutput localStdout).find? (fun b => b.data.contains '*') =
      none := by
    rw [List.find?_eq_none]
    intro b hb
    simpa using h_nostar b hb
  have hcond : (sanitizeBranchOutput localStdout).find? (fun b => b.data.contains '*') ≠
      some ("*" ++ m) := by
    rw [hfind]
    simp
  unfold gitCleanup
  simp only [h_help, Bool.false_eq_true, if_false, h_res, if_neg h_m, h_local,
    if_pos hcond]

/-- Witness for C10 at a concrete input: a local listing with no marked
token aborts the run after the local listing. -/
theorem c10_no_marker_witness :
    (∀ b ∈ sanitizeBranchOutput "dev\nfeature\n", b.data.contains '*' = false) ∧
    (gitCleanup (CleanupFlags.mk false false false (some "main"))
        (fun cmd => if cmd = "git branch" then ExecOutcome.mk none "dev\nfeature\n" ""
          else ExecOutcome.mk none "" "") 0).1 =
      ⟨[] ++ ["git branch"], RunOutcome.notOnMain⟩ :=
  ⟨by decide,
    c10_no_marker (CleanupFlags.mk false false false (some "main"))
      (fun cmd => if cmd = "git branch" then ExecOutcome.mk none "dev\nfeature\n" ""
        else ExecOutcome.mk none "" "") 0 0 "main" [] "dev\nfeature\n"
      rfl (by decide) (by decide) (by decide) (by decide)⟩

/-- Claim C9 fails on the code: with the identical remote-metadata text
containing one head-branch line, the first resolver invocation succeeds
and leaves the global regular expression's lastIndex at 17, so the second
invocation in the same process resumes there, finds no further match and
returns null; at the whole-run level the first invocation completes while
the second stops with a resolution failure. -/
theorem c9_regex_state_bug :
    getMainBranch (CleanupFlags.mk false false false none) runnerStatefulDemo 0 =
      (ResolveResult.value (some "main"), 17, ["git remote show origin"]) ∧
    getMainBranch (CleanupFlags.mk false false false none) runnerStatefulDemo 17 =
      (ResolveResult.value none, 0, ["git remote show origin"]) ∧
    (gitCleanup (CleanupFlags.mk false false false none) runnerStatefulDemo 0).2 = 17 ∧
    (gitCleanup (CleanupFlags.mk false false false none) runnerStatefulDemo 0).1.outcome =
      RunOutcome.noCandidates ∧
    (gitCleanup (CleanupFlags.mk false false false none) runnerStatefulDemo 17).1.outcome =
      RunOutcome.resolutionFailed := by
  refine ⟨by decide, by decide, by decide, by decide, by decide⟩
